import Mathlib

/-!
Verification development for the `putingh` library: a small object-store
abstraction over three GitHub-hosted backends (a file in a git branch, a
release asset, a gist file).  The definitions below are shallow embeddings of
the functions in `putingh.go` (and of `readerWithAutoCloser` from the
auto-closing stream decorator); each theorem checks one claim of the
specification against them.
-/

/-! ## Generic association lists (Go maps / assoc behaviour) -/

/-- Lookup in an association list, first binding wins (models indexing a Go
map or scanning a file list for a key). -/
def lookupA {α : Type} : List (String × α) → String → Option α
  | [], _ => none
  | (k, v) :: rest, key => if k = key then some v else lookupA rest key

/-- Insert-or-replace in an association list (models `m[k] = v` on a Go map,
and writing a file at a path in a tree). -/
def insertA {α : Type} : List (String × α) → String → α → List (String × α)
  | [], key, val => [(key, val)]
  | (k, v) :: rest, key, val =>
    if k = key then (k, val) :: rest else (k, v) :: insertA rest key val

/-- The keys of an association list. -/
def keysA {α : Type} : List (String × α) → List String
  | [] => []
  | (k, _) :: rest => k :: keysA rest

theorem lookupA_insertA_self {α : Type} (l : List (String × α)) (k : String) (v : α) :
    lookupA (insertA l k v) k = some v := by
  induction l with
  | nil => simp [insertA, lookupA]
  | cons hd tl ih =>
    obtain ⟨k', v'⟩ := hd
    by_cases h : k' = k
    · simp [insertA, lookupA, h]
    · simp [insertA, lookupA, h, ih]

theorem mem_keysA_of_lookupA {α : Type} (l : List (String × α)) (k : String) (v : α)
    (h : lookupA l k = some v) : k ∈ keysA l := by
  induction l with
  | nil => simp [lookupA] at h
  | cons hd tl ih =>
    obtain ⟨k', v'⟩ := hd
    by_cases hk : k' = k
    · simp [keysA, hk]
    · simp [lookupA, hk] at h
      simp [keysA]
      exact Or.inr (ih h)

/-! ## Git fetch error classification (`fetchGit`, putingh.go lines 589-600)

`FetchErr` embeds the error value returned by `remote.FetchContext`; the four
constructors are `gogit.NoErrAlreadyUpToDate`, `transport.ErrEmptyRemoteRepository`,
`gogit.NoMatchingRefSpecError` and any other (transport) error carrying a
message. -/

inductive FetchErr : Type
  | alreadyUpToDate
  | emptyRemoteRepository
  | noMatchingRefSpec
  | other (msg : String)
deriving DecidableEq

/-- The message of the underlying error (used by `fmt.Errorf("git fetch: %w", err)`). -/
def fetchErrMsg : FetchErr → String
  | .alreadyUpToDate => "already up-to-date"
  | .emptyRemoteRepository => "remote repository is empty"
  | .noMatchingRefSpec => "couldn't find remote ref"
  | .other m => m

/-- `errors.Is(err, gogit.NoErrAlreadyUpToDate) || errors.Is(err, transport.ErrEmptyRemoteRepository)`. -/
def fetchErrIsBenign : FetchErr → Bool
  | .alreadyUpToDate => true
  | .emptyRemoteRepository => true
  | _ => false

/-- `errors.As(err, &noMatchingRefSpecError)`. -/
def fetchErrIsNoMatchingRef : FetchErr → Bool
  | .noMatchingRefSpec => true
  | _ => false

/-- Embeds putingh.go lines 589-600: after `remote.FetchContext` returns `err`,
decide whether `fetchGit` continues (`.ok`) or aborts with a fetch-phase error. -/
def fetchGitErrCheck (e : Option FetchErr) : Except String Unit :=
  match e with
  | none => .ok ()
  | some err =>
    if fetchErrIsBenign err then .ok ()
    else if fetchErrIsNoMatchingRef err then .ok ()
    else .error ("git fetch: " ++ fetchErrMsg err)

/-! ## The release-by-tag lookup error branch
(`GetFromReleasesAsset` lines 340-343 and `putInReleasesAssetWithFile`
lines 380-383)

The Go code is

    respRelease, response, err := s.cliv3.Repositories.GetReleaseByTag(...)
    if err != nil && response.StatusCode != http.StatusNotFound { return ... err }

`response` is a `*github.Response` and is `nil` whenever the HTTP round trip
itself failed (transport error, cancelled context), in which case
`response.StatusCode` dereferences a nil pointer.  The embedding makes the
nil-pointer dereference explicit as `.nilPanic`. -/

inductive LookupBranch : Type
  | proceed
  | propagate (e : String)
  | nilPanic
deriving DecidableEq

/-- Embeds the two identical `if err != nil && response.StatusCode != http.StatusNotFound`
branches: `err` is the lookup error (if any) and `resp` the status code of the
HTTP response, `none` when no response exists at all. -/
def releaseByTagErrBranch (err : Option String) (resp : Option Nat) : LookupBranch :=
  match err with
  | none => .proceed
  | some e =>
    match resp with
    | none => .nilPanic
    | some status => if status ≠ 404 then .propagate e else .proceed

/-! ## The git mirror sync step (`fetchGit`, putingh.go lines 602-627)

After the fetch, the code runs

    refIter, _ := repository.Storer.IterReferences()
    ref, _ := refIter.Next()
    if !ref.Hash().IsZero() { SetReference(refName, ref.Hash()); Reset(hard, ref.Hash()) }

i.e. it inspects the *first* reference produced by the repository's reference
iterator.  With go-git's filesystem storage that iterator returns the loose
references under `.git/refs` in alphabetical directory order
(`refs/heads/...` before `refs/remotes/...`), followed by the symbolic `HEAD`
reference whose `Hash()` is the zero hash.  `RefStore` records the two
references the driver ever creates: the local branch ref `refs/heads/<branch>`
and the remote-tracking ref `refs/remotes/origin-<branch>/<branch>`.
Hashes are `Nat`, with `0` standing for the zero hash. -/

structure RefStore : Type where
  branchRef : Option Nat
  trackRef : Option Nat
deriving DecidableEq

/-- The hash of the first reference returned by `IterReferences` followed by
`Next()`: `refs/heads/<branch>` if it exists, else
`refs/remotes/origin-<branch>/<branch>` if it exists, else the symbolic
`HEAD` reference (zero hash). -/
def firstRefHash (s : RefStore) : Nat :=
  match s.branchRef with
  | some h => h
  | none =>
    match s.trackRef with
    | some h => h
    | none => 0

/-- Embeds the sync step (lines 610-627): take the first iterated reference;
if its hash is non-zero, force the local branch reference to it and hard-reset
the working tree to it; otherwise touch nothing.  The second component of the
result is the hash the working tree reflects afterwards (`wt` = before). -/
def syncStep (s : RefStore) (wt : Nat) : RefStore × Nat :=
  let h := firstRefHash s
  if h ≠ 0 then ({ s with branchRef := some h }, h) else (s, wt)

/-! ## Theorems for claims C7, C10, C2 -/

/-- C7: in the git mirror fetch step, exactly three fetch outcomes are treated
as non-errors and let the operation continue — already up to date, empty remote
repository, and no matching ref on the remote — and every other fetch error
aborts the whole get or put with a fetch-phase (`git fetch: ...`) error. -/
theorem fetchGit_error_classification :
    (∀ e : Option FetchErr,
      fetchGitErrCheck e = .ok () ↔
        (e = none ∨ e = some .alreadyUpToDate ∨ e = some .emptyRemoteRepository ∨
          e = some .noMatchingRefSpec))
    ∧ (∀ m : String,
        fetchGitErrCheck (some (.other m)) = .error ("git fetch: " ++ m)) := by
  constructor
  · intro e
    match e with
    | none => simp [fetchGitErrCheck]
    | some .alreadyUpToDate =>
      simp [fetchGitErrCheck, fetchErrIsBenign]
    | some .emptyRemoteRepository =>
      simp [fetchGitErrCheck, fetchErrIsBenign]
    | some .noMatchingRefSpec =>
      simp [fetchGitErrCheck, fetchErrIsBenign, fetchErrIsNoMatchingRef]
    | some (.other m) =>
      simp [fetchGitErrCheck, fetchErrIsBenign, fetchErrIsNoMatchingRef]
  · intro m
    simp [fetchGitErrCheck, fetchErrIsBenign, fetchErrIsNoMatchingRef, fetchErrMsg]

/-- C10 (code bug): the error branch of the release-by-tag lookup is *not*
total.  When the lookup fails with an error but no response at all (a transport
failure, so the `*github.Response` is nil), the code dereferences
`response.StatusCode` and faults instead of propagating the error; when a
response is present the branch does behave as claimed (propagate exactly when
the status is not 404). -/
theorem releaseByTag_nil_response_faults :
    releaseByTagErrBranch (some "net/http: request canceled") none = .nilPanic
    ∧ releaseByTagErrBranch (some "boom") (some 500) = .propagate "boom"
    ∧ releaseByTagErrBranch (some "not found") (some 404) = .proceed
    ∧ releaseByTagErrBranch none (some 200) = .proceed := by
  refine ⟨rfl, ?_, ?_, rfl⟩ <;> simp [releaseByTagErrBranch]

/-- C2 (code bug): the sync step after the fetch does not inspect the
remote-tracking reference for the target branch — it inspects whichever
reference the repository's reference iterator yields first.  In a mirror whose
local branch ref (hash 1) precedes the remote-tracking ref (hash 2) in
iteration order, the remote-tracking reference resolves to the non-zero hash 2,
yet the local branch is forced to hash 1 and the working tree is hard-reset to
hash 1, not 2.  (In a fresh mirror, where the only non-symbolic reference is
the remote-tracking ref, the step does behave as the claim states — fourth
conjunct.) -/
theorem fetchGit_sync_uses_first_reference_not_remote_tracking :
    (RefStore.mk (some 1) (some 2)).trackRef = some 2
    ∧ syncStep (RefStore.mk (some 1) (some 2)) 7 = (RefStore.mk (some 1) (some 2), 1)
    ∧ (1 : Nat) ≠ 2
    ∧ syncStep (RefStore.mk none (some 2)) 7 = (RefStore.mk (some 2) (some 2), 2) := by
  refine ⟨rfl, ?_, by decide, ?_⟩ <;> simp [syncStep, firstRefHash]

/-! ## The git mirror world (`fetchGit` + `putInGit`, putingh.go lines 469-630)

`GitWorld` abstracts the state relevant to one `(owner, repo, branch)` triple:
the remote branch (its tree, `none` when the branch does not exist upstream),
the two references of the local mirror — represented by the trees of the
commits they point to — and the mirror's HEAD tree, index and working tree.
Trees are association lists from path to content.  `commits` and `pushes`
count the `work.Commit` and `repository.PushContext` calls that succeeded.

The embedding of `fetchGit` uses three facts about go-git established for the
`syncStep` model above: the fetch refspec updates only the remote-tracking
reference; the first reference yielded by `IterReferences` is the local branch
ref when it exists, else the remote-tracking ref, else symbolic `HEAD` (zero
hash, in which case nothing is reset); a hard reset sets HEAD tree, index and
working tree to the target commit's tree. -/

structure GitWorld : Type where
  remote : Option (List (String × String))
  branchTree : Option (List (String × String))
  trackTree : Option (List (String × String))
  headTree : List (String × String)
  index : List (String × String)
  worktree : List (String × String)
  commits : Nat
  pushes : Nat
deriving DecidableEq

/-- Embeds `fetchGit` (lines 524-630): open-or-init, HEAD/remote/branch
bootstrap (no effect on this abstraction), fetch (updates the remote-tracking
ref when the remote branch exists; the benign fetch errors for an absent
remote branch leave it untouched), then the first-reference sync step. -/
def fetchGitW (w : GitWorld) : GitWorld :=
  let w1 :=
    match w.remote with
    | some t => { w with trackTree := some t }
    | none => w
  match w1.branchTree with
  | some t => { w1 with headTree := t, index := t, worktree := t }
  | none =>
    match w1.trackTree with
    | some t => { w1 with branchTree := some t, headTree := t, index := t, worktree := t }
    | none => w1

/-- `status[p]` of go-git's `work.Status()`: whether the path differs between
index and HEAD tree (staging) or between working tree and index (worktree). -/
def dirtyAt (head index work : List (String × String)) (p : String) : Bool :=
  decide (lookupA index p ≠ lookupA head p) || decide (lookupA work p ≠ lookupA index p)

/-- The paths carrying a non-clean status (the domain of `work.Status()`). -/
def statusPaths (head index work : List (String × String)) : List String :=
  (keysA head ++ keysA index ++ keysA work).filter (dirtyAt head index work)

/-- The commit condition of `putInGit` (lines 503-505):
`len(status) != 0 && status[name] != nil && (status[name].Staging != Unmodified || status[name].Worktree != Unmodified)`. -/
def commitCond (head index work : List (String × String)) (n : String) : Bool :=
  !(statusPaths head index work).isEmpty && dirtyAt head index work n

/-- Embeds `putInGit` (lines 469-522): sync the mirror, write the content to
the named path in the working tree, `git add` it, and commit + push only when
the status of that path shows a change.  A successful commit advances HEAD's
branch to the committed index; a successful push makes the remote branch equal
to the local branch tip. -/
def putInGitW (w : GitWorld) (n c : String) : GitWorld :=
  let v := fetchGitW w
  let wtW := insertA v.worktree n c
  let idx := insertA v.index n c
  if commitCond v.headTree idx wtW n then
    { v with
      worktree := wtW, index := idx,
      headTree := idx, branchTree := some idx,
      commits := v.commits + 1,
      remote := some idx, pushes := v.pushes + 1 }
  else
    { v with worktree := wtW, index := idx }

/-- The status of the named path in a put, observed after sync, write and add
(the boolean the commit decision of lines 503-505 tests for that path). -/
def putStatusAfterAdd (w : GitWorld) (n c : String) : Bool :=
  let v := fetchGitW w
  dirtyAt v.headTree (insertA v.index n c) (insertA v.worktree n c) n

theorem fetchGitW_counts (w : GitWorld) :
    (fetchGitW w).commits = w.commits ∧ (fetchGitW w).pushes = w.pushes ∧
      (fetchGitW w).remote = w.remote := by
  obtain ⟨r, b, tk, h, i, wt, cm, ps⟩ := w
  cases r <;> cases b <;> cases tk <;> simp [fetchGitW]

theorem fetchGitW_headTree_of_branch (w : GitWorld) (t : List (String × String))
    (hb : w.branchTree = some t) : (fetchGitW w).headTree = t := by
  obtain ⟨r, b, tk, h, i, wt, cm, ps⟩ := w
  simp only at hb
  subst hb
  cases r <;> simp [fetchGitW]

theorem fetchGitW_branch_some (w : GitWorld) (t : List (String × String))
    (hb : (fetchGitW w).branchTree = some t) :
    (fetchGitW w).headTree = t ∧ (fetchGitW w).index = t ∧ (fetchGitW w).worktree = t := by
  obtain ⟨r, b, tk, h, i, wt, cm, ps⟩ := w
  cases r <;> cases b <;> cases tk <;>
    simp [fetchGitW] at hb ⊢ <;> simp [hb]

theorem fetchGitW_branch_none (w : GitWorld)
    (hb : (fetchGitW w).branchTree = none) :
    fetchGitW w = w ∧ w.remote = none ∧ w.trackTree = none ∧ w.branchTree = none := by
  obtain ⟨r, b, tk, h, i, wt, cm, ps⟩ := w
  cases r <;> cases b <;> cases tk <;> simp [fetchGitW] at hb ⊢

theorem commitCond_true_of_dirty (h i wk : List (String × String)) (n c : String)
    (hlk : lookupA i n = some c) (hd : dirtyAt h i wk n = true) :
    commitCond h i wk n = true := by
  have hmem : n ∈ statusPaths h i wk := by
    unfold statusPaths
    refine List.mem_filter.2 ⟨?_, hd⟩
    have : n ∈ keysA i := mem_keysA_of_lookupA i n c hlk
    simp [List.mem_append, this]
  unfold commitCond
  rw [hd, Bool.and_true]
  cases hsp : statusPaths h i wk with
  | nil => rw [hsp] at hmem; simp at hmem
  | cons a l => simp [List.isEmpty]

theorem dirty_of_not_commitCond (h i wk : List (String × String)) (n c : String)
    (hlk : lookupA i n = some c) (hc : commitCond h i wk n = false) :
    dirtyAt h i wk n = false := by
  by_contra hd
  rw [Bool.not_eq_false] at hd
  rw [commitCond_true_of_dirty h i wk n c hlk hd] at hc
  exact absurd hc (by simp)

theorem fetchGitW_id_of_none (w : GitWorld) (hr : w.remote = none)
    (hb : w.branchTree = none) (ht : w.trackTree = none) : fetchGitW w = w := by
  obtain ⟨r, b, tk, h, i, wt, cm, ps⟩ := w
  simp only at hr hb ht
  subst hr; subst hb; subst ht
  simp [fetchGitW]

theorem putInGitW_head_lookup (w : GitWorld) (n c : String) :
    lookupA (fetchGitW (putInGitW w n c)).headTree n = some c := by
  by_cases hc : commitCond (fetchGitW w).headTree (insertA (fetchGitW w).index n c)
      (insertA (fetchGitW w).worktree n c) n = true
  · have hw1 : (putInGitW w n c).branchTree = some (insertA (fetchGitW w).index n c) := by
      simp [putInGitW, hc]
    rw [fetchGitW_headTree_of_branch _ _ hw1]
    exact lookupA_insertA_self _ _ _
  · have hcf : commitCond (fetchGitW w).headTree (insertA (fetchGitW w).index n c)
        (insertA (fetchGitW w).worktree n c) n = false := by
      cases h' : commitCond (fetchGitW w).headTree (insertA (fetchGitW w).index n c)
          (insertA (fetchGitW w).worktree n c) n with
      | true => exact absurd h' hc
      | false => rfl
    have hw1 : putInGitW w n c =
        { fetchGitW w with
          worktree := insertA (fetchGitW w).worktree n c,
          index := insertA (fetchGitW w).index n c } := by
      simp [putInGitW, hcf]
    have hdf := dirty_of_not_commitCond _ _ _ n c (lookupA_insertA_self (fetchGitW w).index n c) hcf
    have hhd : lookupA (fetchGitW w).headTree n = some c := by
      unfold dirtyAt at hdf
      simp only [Bool.or_eq_false_iff, decide_eq_false_iff_not, not_not] at hdf
      rw [← hdf.1]
      exact lookupA_insertA_self _ _ _
    cases hb : (fetchGitW w).branchTree with
    | some tb =>
      have hbs := fetchGitW_branch_some w tb hb
      have hw1b : (putInGitW w n c).branchTree = some tb := by
        rw [hw1]; exact hb
      rw [fetchGitW_headTree_of_branch _ _ hw1b, ← hbs.1]
      exact hhd
    | none =>
      have hbn := fetchGitW_branch_none w hb
      have hid : fetchGitW (putInGitW w n c) = putInGitW w n c := by
        refine fetchGitW_id_of_none _ ?_ ?_ ?_ <;> rw [hw1]
        · show (fetchGitW w).remote = none
          rw [(fetchGitW_counts w).2.2]
          exact hbn.2.1
        · show (fetchGitW w).branchTree = none
          exact hb
        · show (fetchGitW w).trackTree = none
          rw [hbn.1]
          exact hbn.2.2.1
      rw [hid, hw1]
      exact hhd

theorem putInGitW_second_status (w : GitWorld) (n c : String) :
    putStatusAfterAdd (putInGitW w n c) n c = false := by
  have hk := putInGitW_head_lookup w n c
  unfold putStatusAfterAdd dirtyAt
  simp only [lookupA_insertA_self, hk]
  simp

theorem putInGitW_second_counts (w : GitWorld) (n c : String) :
    (putInGitW (putInGitW w n c) n c).commits = (putInGitW w n c).commits ∧
      (putInGitW (putInGitW w n c) n c).pushes = (putInGitW w n c).pushes := by
  have hs := putInGitW_second_status w n c
  unfold putStatusAfterAdd at hs
  simp only [] at hs
  generalize hgen : putInGitW w n c = w1 at hs ⊢
  have hcond : commitCond (fetchGitW w1).headTree
      (insertA (fetchGitW w1).index n c)
      (insertA (fetchGitW w1).worktree n c) n = false := by
    unfold commitCond
    rw [hs, Bool.and_false]
  have hc := fetchGitW_counts w1
  have hput : putInGitW w1 n c =
      { fetchGitW w1 with
        worktree := insertA (fetchGitW w1).worktree n c,
        index := insertA (fetchGitW w1).index n c } := by
    simp [putInGitW, hcond]
  rw [hput]
  exact ⟨hc.1, hc.2.1⟩

/-- C1: a git put whose content is identical to what is already committed at
that path performs no commit and no push.  Under the same address, a put whose
content differs from the synced tree commits and pushes exactly once, and an
immediately repeated put of the same bytes commits and pushes zero times, its
worktree status for the path showing no change after sync, write and add.  The
two hypotheses record that the first call starts from a mirror whose index and
working tree agree with its HEAD tree after the sync phase (as the hard reset
guarantees; they also hold for a freshly initialised empty mirror). -/
theorem putInGit_idempotent (w : GitWorld) (n c : String)
    (hidx : (fetchGitW w).index = (fetchGitW w).headTree)
    (hwt : (fetchGitW w).worktree = (fetchGitW w).headTree) :
    (lookupA (fetchGitW w).headTree n = some c →
      (putInGitW w n c).commits = w.commits ∧ (putInGitW w n c).pushes = w.pushes)
    ∧ (lookupA (fetchGitW w).headTree n ≠ some c →
      (putInGitW w n c).commits = w.commits + 1 ∧ (putInGitW w n c).pushes = w.pushes + 1)
    ∧ putStatusAfterAdd (putInGitW w n c) n c = false
    ∧ (putInGitW (putInGitW w n c) n c).commits = (putInGitW w n c).commits
    ∧ (putInGitW (putInGitW w n c) n c).pushes = (putInGitW w n c).pushes := by
  have hcnt := fetchGitW_counts w
  have hdirty : dirtyAt (fetchGitW w).headTree (insertA (fetchGitW w).index n c)
      (insertA (fetchGitW w).worktree n c) n
      = decide (some c ≠ lookupA (fetchGitW w).headTree n) := by
    unfold dirtyAt
    rw [hidx, hwt]
    simp only [lookupA_insertA_self]
    simp
  refine ⟨?_, ?_, putInGitW_second_status w n c,
    (putInGitW_second_counts w n c).1, (putInGitW_second_counts w n c).2⟩
  · intro h
    have hdf : dirtyAt (fetchGitW w).headTree (insertA (fetchGitW w).index n c)
        (insertA (fetchGitW w).worktree n c) n = false := by
      rw [hdirty, h]
      simp
    have hcond : commitCond (fetchGitW w).headTree (insertA (fetchGitW w).index n c)
        (insertA (fetchGitW w).worktree n c) n = false := by
      unfold commitCond
      rw [hdf, Bool.and_false]
    constructor
    · rw [show (putInGitW w n c).commits = (fetchGitW w).commits from by
        simp [putInGitW, hcond]]
      exact hcnt.1
    · rw [show (putInGitW w n c).pushes = (fetchGitW w).pushes from by
        simp [putInGitW, hcond]]
      exact hcnt.2.1
  · intro h
    have hdt : dirtyAt (fetchGitW w).headTree (insertA (fetchGitW w).index n c)
        (insertA (fetchGitW w).worktree n c) n = true := by
      rw [hdirty]
      exact decide_eq_true (fun he => h he.symm)
    have hcond := commitCond_true_of_dirty _ _ _ n c
      (lookupA_insertA_self (fetchGitW w).index n c) hdt
    constructor
    · rw [show (putInGitW w n c).commits = (fetchGitW w).commits + 1 from by
        simp [putInGitW, hcond]]
      rw [hcnt.1]
    · rw [show (putInGitW w n c).pushes = (fetchGitW w).pushes + 1 from by
        simp [putInGitW, hcond]]
      rw [hcnt.2.1]

/-- Witness for C1 at a fresh mirror of an empty remote: the first put of
"data" under "dir/file" commits once, the second put of the same bytes does
not commit. -/
theorem putInGit_idempotent_witness :
    (putInGitW (GitWorld.mk none none none [] [] [] 0 0) "dir/file" "data").commits
        = (GitWorld.mk none none none [] [] [] 0 0).commits + 1
    ∧ (putInGitW (putInGitW (GitWorld.mk none none none [] [] [] 0 0) "dir/file" "data")
          "dir/file" "data").commits
        = (putInGitW (GitWorld.mk none none none [] [] [] 0 0) "dir/file" "data").commits := by
  have h := putInGit_idempotent (GitWorld.mk none none none [] [] [] 0 0) "dir/file" "data"
    (by decide) (by decide)
  exact ⟨(h.2.1 (by decide)).1, h.2.2.2.1⟩

/-! ## The URI router (`GetFrom` lines 145-171, `PutIn` lines 201-227,
`PutInWithFile` lines 173-199)

All three entry points parse the address identically: `url.Parse`, a switch on
the scheme, `strings.SplitN(url.Path, "/", k)` with `k = 4` for `git` and
`asset` and `k = 3` for `gist`, a length check, and a dispatch that uses
`url.Host` as the owner and the split's tail as the remaining parameters. -/

/-- Split a character list at the first occurrence of `sep`: the part before
it, and (when `sep` occurs) the part after it. -/
def breakOn (sep : Char) : List Char → List Char × Option (List Char)
  | [] => ([], none)
  | c :: cs =>
    if c = sep then ([], some cs)
    else
      let p := breakOn sep cs
      (c :: p.1, p.2)

/-- Go's `strings.SplitN(s, sep, n)` for a single-character separator and
`n > 0`: at most `n` substrings, the last one holding the unsplit rest. -/
def splitNChars (sep : Char) : List Char → Nat → List (List Char)
  | _, 0 => []
  | cs, 1 => [cs]
  | cs, Nat.succ (Nat.succ m) =>
    match breakOn sep cs with
    | (pre, none) => [pre]
    | (pre, some rest) => pre :: splitNChars sep rest (Nat.succ m)

/-- `strings.SplitN(s, "/", n)` on strings. -/
def splitNGo (s : String) (n : Nat) : List String :=
  (splitNChars '/' s.data n).map String.mk

/-- The `scheme`, `Host` and `Path` fields of a parsed `*url.URL` that the
router reads. -/
structure GoURL : Type where
  scheme : String
  host : String
  path : String
deriving DecidableEq

/-- The dispatch decision of the router: which backend driver is invoked with
which positional parameters, or the error returned for an invalid address. -/
inductive Route : Type
  | git (owner repo branch name : String)
  | asset (owner repo release name : String)
  | gist (owner gistId name : String)
  | invalid (msg : String)
deriving DecidableEq

/-- Go's `%q` of a plain (escape-free) string. -/
def quoteGo (s : String) : String := "\"" ++ s ++ "\""

/-- Embeds the shared routing logic of `GetFrom`, `PutIn` and `PutInWithFile`:
`uri` is the original address string (used in error messages), `u` the parsed
URL. -/
def routeAddress (uri : String) (u : GoURL) : Route :=
  if u.scheme = "git" then
    match splitNGo u.path 4 with
    | [_, a, b, c] => .git u.host a b c
    | _ => .invalid (quoteGo uri ++ " not match git://owner/repository/branch/name")
  else if u.scheme = "asset" then
    match splitNGo u.path 4 with
    | [_, a, b, c] => .asset u.host a b c
    | _ => .invalid (quoteGo uri ++ " not match asset://owner/repository/release/name")
  else if u.scheme = "gist" then
    match splitNGo u.path 3 with
    | [_, a, b] => .gist u.host a b
    | _ => .invalid (quoteGo uri ++ " not match gist://owner/gist_id/name")
  else .invalid (quoteGo uri ++ " not support")

/-- `url.Parse` restricted to plain `scheme://host[/path]` address strings
(no userinfo, port, query, fragment or percent-escapes — the subset the
router's address grammar uses). -/
def parseSimpleURI (s : String) : Option GoURL :=
  match breakOn ':' s.data with
  | (scheme, some ('/' :: '/' :: hostpath)) =>
    match breakOn '/' hostpath with
    | (host, some path) => some ⟨String.mk scheme, String.mk host, String.mk ('/' :: path)⟩
    | (host, none) => some ⟨String.mk scheme, String.mk host, ""⟩
  | _ => none

/-- C3: the router parses scheme and path segments with fixed arity (git 4,
asset 4, gist 3 — the owner being the URI host plus 3 resp. 2 path segments)
and fails with an invalid-address error carrying the offending string and the
expected pattern whenever the segment count does not match; `git://a/b`
(2 segments) fails, `git://a/b/c/d` (4 segments) dispatches, and for the git
scheme the name segment may itself contain `/`
(`git://a/b/c/d/e` dispatches with name `d/e`). -/
theorem routeAddress_arity (uri : String) (u : GoURL) :
    (u.scheme = "git" → (splitNGo u.path 4).length ≠ 4 →
      routeAddress uri u =
        .invalid (quoteGo uri ++ " not match git://owner/repository/branch/name"))
    ∧ (u.scheme = "asset" → (splitNGo u.path 4).length ≠ 4 →
      routeAddress uri u =
        .invalid (quoteGo uri ++ " not match asset://owner/repository/release/name"))
    ∧ (u.scheme = "gist" → (splitNGo u.path 3).length ≠ 3 →
      routeAddress uri u =
        .invalid (quoteGo uri ++ " not match gist://owner/gist_id/name"))
    ∧ (∀ x a b c : String, u.scheme = "git" → splitNGo u.path 4 = [x, a, b, c] →
      routeAddress uri u = .git u.host a b c)
    ∧ (parseSimpleURI "git://a/b" = some ⟨"git", "a", "/b"⟩
      ∧ routeAddress "git://a/b" ⟨"git", "a", "/b"⟩ =
          .invalid "\"git://a/b\" not match git://owner/repository/branch/name")
    ∧ (parseSimpleURI "git://a/b/c/d" = some ⟨"git", "a", "/b/c/d"⟩
      ∧ routeAddress "git://a/b/c/d" ⟨"git", "a", "/b/c/d"⟩ = .git "a" "b" "c" "d")
    ∧ routeAddress "git://a/b/c/d/e" ⟨"git", "a", "/b/c/d/e"⟩ = .git "a" "b" "c" "d/e" := by
  refine ⟨?_, ?_, ?_, ?_, ⟨by decide, by decide⟩, ⟨by decide, by decide⟩, by decide⟩
  · intro hs hlen
    unfold routeAddress
    rw [hs]
    simp only [if_pos rfl]
    match hsp : splitNGo u.path 4 with
    | [] => rfl
    | [_] => rfl
    | [_, _] => rfl
    | [_, _, _] => rfl
    | [_, _, _, _] => rw [hsp] at hlen; simp at hlen
    | _ :: _ :: _ :: _ :: _ :: _ => rfl
  · intro hs hlen
    unfold routeAddress
    rw [hs]
    simp only [if_pos rfl, if_neg (by decide : ¬("asset" = "git"))]
    match hsp : splitNGo u.path 4 with
    | [] => rfl
    | [_] => rfl
    | [_, _] => rfl
    | [_, _, _] => rfl
    | [_, _, _, _] => rw [hsp] at hlen; simp at hlen
    | _ :: _ :: _ :: _ :: _ :: _ => rfl
  · intro hs hlen
    unfold routeAddress
    rw [hs]
    simp only [if_neg (by decide : ¬("gist" = "git")),
      if_neg (by decide : ¬("gist" = "asset")), if_pos rfl]
    match hsp : splitNGo u.path 3 with
    | [] => rfl
    | [_] => rfl
    | [_, _] => rfl
    | [_, _, _] => rw [hsp] at hlen; simp at hlen
    | _ :: _ :: _ :: _ :: _ => rfl
  · intro x a b c hs hsp
    unfold routeAddress
    rw [hs, hsp]
    simp

/-- Witness for C3: the invalid-arity branch of the theorem evaluated at the
concrete address `git://a/b`. -/
theorem routeAddress_arity_witness :
    routeAddress "git://a/b" ⟨"git", "a", "/b"⟩ =
      .invalid (quoteGo "git://a/b" ++ " not match git://owner/repository/branch/name") :=
  (routeAddress_arity "git://a/b" ⟨"git", "a", "/b"⟩).1 rfl (by decide)

/-! ## Gists (`GetFromGist` lines 238-278, `putInGist` lines 280-337)

A gist is an identifier plus a file map.  Both operations scan the owner's
gists with `eachGist` and the same in-page loop (lines 240-254 / 288-302):
the first gist matching the selector — the wildcard `*` matches a gist
containing a file literally named `name`, a concrete selector matches by
identifier — becomes `oriGist`.  `findGist` is that loop over the gists in
scan order. -/

structure GistFile : Type where
  filename : Option String
  content : Option String
  rawURL : Option String
deriving DecidableEq

structure Gist : Type where
  id : String
  description : Option String
  public : Bool
  files : List (String × GistFile)
deriving DecidableEq

/-- The wildcard selector (`anyFile = "*"` in the source). -/
def anyFile : String := "*"

/-- The scan's match rule (lines 240-254 / 288-302): first gist in scan order
matching the selector. -/
def findGist : List Gist → String → String → Option Gist
  | [], _, _ => none
  | g :: gs, gistId, name =>
    if gistId = anyFile then
      if (lookupA g.files name).isSome then some g else findGist gs gistId name
    else if g.id = gistId then some g
    else findGist gs gistId name

/-- The result of `GetFromGist`: inline content, a stream obtained by an HTTP
get of the file's raw-content URL, or `ErrNotFound`. -/
inductive GistGet : Type
  | inline (content : String)
  | stream (rawURL : String)
  | notFound
deriving DecidableEq

/-- Embeds `GetFromGist` (lines 238-278). -/
def getFromGistM (gists : List Gist) (gistId name : String) : GistGet :=
  match findGist gists gistId name with
  | none => .notFound
  | some g =>
    match lookupA g.files name with
    | none => .notFound
    | some f =>
      match f.content with
      | some c => .inline c
      | none =>
        match f.rawURL with
        | some u => .stream u
        | none => .notFound

/-- The remote API call `putInGist` submits after its scan (lines 307-334):
either `Gists.Create` with a fresh gist payload, or `Gists.Edit` on the
matched gist's identifier with the mutated gist as payload. -/
inductive GistPutCall : Type
  | create (payload : Gist)
  | edit (id : String) (payload : Gist)
deriving DecidableEq

/-- Embeds the create-vs-edit decision and payload construction of
`putInGist`: on a match the code overwrites `oriGist.Files` with the singleton
map `{name: {Filename: name, Content: data}}` and submits the whole gist. -/
def putInGistCall (gists : List Gist) (gistId name data : String) : GistPutCall :=
  match findGist gists gistId name with
  | none =>
    .create
      { id := "", description := some gistId, public := true,
        files := [(name, { filename := none, content := some data, rawURL := none })] }
  | some g =>
    .edit g.id
      { g with files := [(name, { filename := some name, content := some data, rawURL := none })] }

/-- Modelled from the spec: the forge's gist Edit endpoint is an external
collaborator (not part of this repository's source); section 4.3 specifies it
as a full-object replace, so applying an edit stores the payload's file set as
the gist's entire file set. -/
def applyGistEdit (store : List Gist) (gid : String) (payload : Gist) : List Gist :=
  store.map fun g => if g.id = gid then { g with files := payload.files } else g

/-- C8: for a gist get, the wildcard selector matches the first scanned gist
containing a file literally named `name` and a concrete selector matches the
gist whose identifier equals the selector; on a match the named file's inline
content is returned when present, else its raw-content URL is fetched as a
stream; when no gist matches, or the matched gist lacks the named file, the
result is `ErrNotFound`. -/
theorem getFromGist_match_rule :
    (∀ (gists : List Gist) (name : String),
      findGist gists anyFile name = gists.find? fun g => (lookupA g.files name).isSome)
    ∧ (∀ (gists : List Gist) (sel name : String), sel ≠ anyFile →
      findGist gists sel name = gists.find? fun g => decide (g.id = sel))
    ∧ (∀ (gists : List Gist) (sel name : String),
      findGist gists sel name = none → getFromGistM gists sel name = .notFound)
    ∧ (∀ (gists : List Gist) (sel name : String) (g : Gist),
      findGist gists sel name = some g → lookupA g.files name = none →
      getFromGistM gists sel name = .notFound)
    ∧ (∀ (gists : List Gist) (sel name : String) (g : Gist) (f : GistFile) (c : String),
      findGist gists sel name = some g → lookupA g.files name = some f →
      f.content = some c → getFromGistM gists sel name = .inline c)
    ∧ (∀ (gists : List Gist) (sel name : String) (g : Gist) (f : GistFile) (u : String),
      findGist gists sel name = some g → lookupA g.files name = some f →
      f.content = none → f.rawURL = some u →
      getFromGistM gists sel name = .stream u) := by
  refine ⟨?_, ?_, ?_, ?_, ?_, ?_⟩
  · intro gists name
    induction gists with
    | nil => rfl
    | cons g gs ih =>
      rw [List.find?_cons]
      by_cases hf : (lookupA g.files name).isSome
      · simp [findGist, anyFile, hf]
      · simp only [Bool.not_eq_true] at hf
        simp [findGist, anyFile, hf]
        simpa [anyFile] using ih
  · intro gists sel name hsel
    induction gists with
    | nil => rfl
    | cons g gs ih =>
      rw [List.find?_cons]
      by_cases hid : g.id = sel
      · simp [findGist, hsel, hid]
      · simp [findGist, hsel, hid, ih]
  · intro gists sel name h
    simp [getFromGistM, h]
  · intro gists sel name g h1 h2
    simp [getFromGistM, h1, h2]
  · intro gists sel name g f c h1 h2 h3
    simp [getFromGistM, h1, h2, h3]
  · intro gists sel name g f u h1 h2 h3 h4
    simp [getFromGistM, h1, h2, h3, h4]

/-- Witness for C8: a two-gist store where only the second gist contains a
file named "x", looked up through the wildcard selector, returns that file's
inline content. -/
theorem getFromGist_match_rule_witness :
    getFromGistM
      [Gist.mk "g1" none true [("y", GistFile.mk none (some "other") none)],
        Gist.mk "g2" none true [("x", GistFile.mk none (some "hello") none)]]
      anyFile "x" = .inline "hello" :=
  getFromGist_match_rule.2.2.2.2.1
    [Gist.mk "g1" none true [("y", GistFile.mk none (some "other") none)],
      Gist.mk "g2" none true [("x", GistFile.mk none (some "hello") none)]]
    anyFile "x"
    (Gist.mk "g2" none true [("x", GistFile.mk none (some "hello") none)])
    (GistFile.mk none (some "hello") none) "hello"
    (by decide) (by decide) rfl

/-- C4: when a gist put finds a matching gist, the edit it submits replaces
the gist's entire file set with the single entry `name` (a full-object
replace, not a merge); under the spec's model of the Edit endpoint, any other
file `y` of that gist is gone afterwards and `name` is the gist's only file. -/
theorem putInGist_full_replace (gists : List Gist) (gistId name data : String) (g : Gist)
    (hfind : findGist gists gistId name = some g) :
    (putInGistCall gists gistId name data =
      .edit g.id { g with files := [(name, GistFile.mk (some name) (some data) none)] })
    ∧ (∀ g', g' ∈ applyGistEdit gists g.id
          { g with files := [(name, GistFile.mk (some name) (some data) none)] } →
        g'.id = g.id →
        keysA g'.files = [name]
        ∧ lookupA g'.files name = some (GistFile.mk (some name) (some data) none)
        ∧ ∀ y, y ≠ name → lookupA g'.files y = none) := by
  constructor
  · unfold putInGistCall
    rw [hfind]
  · intro g' hmem hid
    unfold applyGistEdit at hmem
    obtain ⟨a, _, ha⟩ := List.mem_map.1 hmem
    by_cases hcase : a.id = g.id
    · rw [if_pos hcase] at ha
      subst ha
      refine ⟨rfl, ?_, ?_⟩
      · simp [lookupA]
      · intro y hy
        simp [lookupA]
        exact fun he => absurd he.symm hy
    · rw [if_neg hcase] at ha
      subst ha
      exact absurd hid hcase

/-- Witness for C4: putting file "x" into a gist that currently contains both
"x" and "y" submits a singleton file set, and afterwards the gist holds only
"x". -/
theorem putInGist_full_replace_witness :
    (putInGistCall
        [Gist.mk "G" none true
          [("x", GistFile.mk none (some "old") none), ("y", GistFile.mk none (some "keep") none)]]
        "G" "x" "new" =
      .edit "G" (Gist.mk "G" none true [("x", GistFile.mk (some "x") (some "new") none)]))
    ∧ keysA (Gist.mk "G" none true [("x", GistFile.mk (some "x") (some "new") none)]).files = ["x"]
    ∧ lookupA (Gist.mk "G" none true
        [("x", GistFile.mk (some "x") (some "new") none)]).files "y" = none := by
  have h := putInGist_full_replace
    [Gist.mk "G" none true
      [("x", GistFile.mk none (some "old") none), ("y", GistFile.mk none (some "keep") none)]]
    "G" "x" "new"
    (Gist.mk "G" none true
      [("x", GistFile.mk none (some "old") none), ("y", GistFile.mk none (some "keep") none)])
    (by decide)
  have h2 := h.2 (Gist.mk "G" none true [("x", GistFile.mk (some "x") (some "new") none)])
    (by decide) rfl
  exact ⟨h.1, h2.1, h2.2.2 "y" (by decide)⟩

/-! ## Release assets (`putInReleasesAssetWithFile`, putingh.go lines 379-430)

A release is an identifier, a tag and a list of assets (identifier + name).
The model tracks the remote API calls that mutate assets (`DeleteReleaseAsset`,
`UploadReleaseAsset`) in order, the returned value, and the resulting remote
state.  `deleteErr`/`uploadErr` inject the remote's answer to the delete and
upload calls; the release lookup and creation are taken on their happy path
(the claim concerns the existing-release, existing-asset path). -/

structure RelAsset : Type where
  id : Nat
  name : String
deriving DecidableEq

structure Release : Type where
  id : Nat
  tag : String
  assets : List RelAsset
deriving DecidableEq

inductive AssetAction : Type
  | deleteAsset (assetId : Nat)
  | uploadAsset (name : String)
deriving DecidableEq

structure AssetPutResult : Type where
  ok : Bool
  err : Option String
  actions : List AssetAction
  releases : List Release
deriving DecidableEq

/-- Remove the asset with the given identifier from the release with the given
identifier (`DeleteReleaseAsset`). -/
def removeAssetIn (rels : List Release) (relId assetId : Nat) : List Release :=
  rels.map fun r =>
    if r.id = relId then { r with assets := r.assets.filter fun a => decide (a.id ≠ assetId) }
    else r

/-- Attach a fresh asset to the release with the given identifier
(a successful `UploadReleaseAsset`). -/
def addAssetIn (rels : List Release) (relId : Nat) (a : RelAsset) : List Release :=
  rels.map fun r => if r.id = relId then { r with assets := r.assets ++ [a] } else r

/-- Embeds `putInReleasesAssetWithFile` (lines 379-430): look up the release
by tag; create it when absent; when present, delete the first asset whose name
matches (aborting on a delete error, in which case no upload is attempted);
then upload the new asset (aborting on an upload error with no compensating
re-creation of a deleted asset). -/
def putInReleasesAssetM (rels : List Release) (release name : String)
    (deleteErr uploadErr : Option String) (newRelId newAssetId : Nat) : AssetPutResult :=
  match rels.find? (fun r => decide (r.tag = release)) with
  | none =>
    let rels1 := rels ++ [{ id := newRelId, tag := release, assets := [] }]
    match uploadErr with
    | some e => { ok := false, err := some e, actions := [.uploadAsset name], releases := rels1 }
    | none =>
      { ok := true, err := none, actions := [.uploadAsset name],
        releases := addAssetIn rels1 newRelId { id := newAssetId, name := name } }
  | some rel =>
    match rel.assets.find? (fun a => decide (a.name = name)) with
    | none =>
      match uploadErr with
      | some e => { ok := false, err := some e, actions := [.uploadAsset name], releases := rels }
      | none =>
        { ok := true, err := none, actions := [.uploadAsset name],
          releases := addAssetIn rels rel.id { id := newAssetId, name := name } }
    | some a =>
      match deleteErr with
      | some e =>
        { ok := false, err := some e, actions := [.deleteAsset a.id], releases := rels }
      | none =>
        let rels1 := removeAssetIn rels rel.id a.id
        match uploadErr with
        | some e =>
          { ok := false, err := some e, actions := [.deleteAsset a.id, .uploadAsset name],
            releases := rels1 }
        | none =>
          { ok := true, err := none, actions := [.deleteAsset a.id, .uploadAsset name],
            releases := addAssetIn rels1 rel.id { id := newAssetId, name := name } }

/-- C5: when the release exists and carries an asset of the given name, that
asset is deleted before the new one is uploaded (the action trace is the
delete followed by the upload); if the delete fails, the put aborts with the
delete error and no upload is attempted; if the upload fails after the delete,
the put aborts with the upload error and the remote is left in the
post-deletion state — the deleted asset is not re-created. -/
theorem putInReleasesAsset_delete_then_upload
    (rels : List Release) (release name : String)
    (deleteErr uploadErr : Option String) (newRelId newAssetId : Nat)
    (rel : Release) (a : RelAsset)
    (hrel : rels.find? (fun r => decide (r.tag = release)) = some rel)
    (hasset : rel.assets.find? (fun a => decide (a.name = name)) = some a) :
    (deleteErr = none →
      (putInReleasesAssetM rels release name deleteErr uploadErr newRelId newAssetId).actions
        = [.deleteAsset a.id, .uploadAsset name])
    ∧ (∀ e, deleteErr = some e →
      putInReleasesAssetM rels release name deleteErr uploadErr newRelId newAssetId
        = { ok := false, err := some e, actions := [.deleteAsset a.id], releases := rels })
    ∧ (∀ e, deleteErr = none → uploadErr = some e →
      putInReleasesAssetM rels release name deleteErr uploadErr newRelId newAssetId
        = { ok := false, err := some e, actions := [.deleteAsset a.id, .uploadAsset name],
            releases := removeAssetIn rels rel.id a.id }) := by
  refine ⟨?_, ?_, ?_⟩
  · intro hd
    subst hd
    cases uploadErr <;> simp [putInReleasesAssetM, hrel, hasset]
  · intro e hd
    subst hd
    simp [putInReleasesAssetM, hrel, hasset]
  · intro e hd hu
    subst hd
    subst hu
    simp [putInReleasesAssetM, hrel, hasset]

/-- Witness for C5: a release "v1" with one asset "bin" whose delete succeeds
and whose upload then fails leaves the release without the asset and aborts
with the upload error. -/
theorem putInReleasesAsset_delete_then_upload_witness :
    putInReleasesAssetM [Release.mk 10 "v1" [RelAsset.mk 5 "bin"]] "v1" "bin"
        none (some "upload failed") 11 6
      = { ok := false, err := some "upload failed",
          actions := [.deleteAsset 5, .uploadAsset "bin"],
          releases := removeAssetIn [Release.mk 10 "v1" [RelAsset.mk 5 "bin"]] 10 5 } :=
  (putInReleasesAsset_delete_then_upload
    [Release.mk 10 "v1" [RelAsset.mk 5 "bin"]] "v1" "bin" none (some "upload failed") 11 6
    (Release.mk 10 "v1" [RelAsset.mk 5 "bin"]) (RelAsset.mk 5 "bin")
    (by decide) (by decide)).2.2 "upload failed" rfl rfl

/-! ## The paginated remote scan (`eachReleases` lines 655-677,
`eachGist` lines 679-702)

Both scanners run the same loop: request a page, stop on an error (a 404 on a
page is turned into a nil error, any other error propagates — either way the
loop ends), stop when the caller's predicate `next` returns false, stop when
the response advertises no next page (`NextPage == 0`), otherwise request the
advertised next page.  `PageResp` is the per-page answer of the remote
(`ListReleases` / `Gists.List`); the remote collection is a function from the
requested page number to its answer.  `eachScanTrace` records the pages
requested, in order; `fuel` bounds the number of iterations so the model is
total (the loop itself has no such bound). -/

structure PageResp (α : Type) : Type where
  items : List α
  nextPage : Nat
  err : Option String

/-- The sequence of page numbers the scan loop requests, starting at `page`. -/
def eachScanTrace {α : Type} (pages : Nat → PageResp α) (next : List α → Bool) :
    Nat → Nat → List Nat
  | 0, _ => []
  | fuel + 1, page =>
    match (pages page).err with
    | some _ => [page]
    | none =>
      if next (pages page).items = false then [page]
      else if (pages page).nextPage = 0 then [page]
      else page :: eachScanTrace pages next fuel (pages page).nextPage

theorem eachScanTrace_succ {α : Type} (pages : Nat → PageResp α) (next : List α → Bool)
    (fuel page : Nat) :
    eachScanTrace pages next (fuel + 1) page =
      if (pages page).err = none ∧ next (pages page).items = true ∧ (pages page).nextPage ≠ 0
      then page :: eachScanTrace pages next fuel (pages page).nextPage
      else [page] := by
  cases he : (pages page).err with
  | some e => simp [eachScanTrace, he]
  | none =>
    cases hn : next (pages page).items with
    | false => simp [eachScanTrace, he, hn]
    | true =>
      by_cases hp : (pages page).nextPage = 0
      · simp [eachScanTrace, he, hn, hp]
      · simp [eachScanTrace, he, hn, hp]

theorem eachScanTrace_ne_nil {α : Type} (pages : Nat → PageResp α) (next : List α → Bool)
    (fuel page : Nat) : eachScanTrace pages next (fuel + 1) page ≠ [] := by
  rw [eachScanTrace_succ]
  by_cases hc : (pages page).err = none ∧ next (pages page).items = true ∧
      (pages page).nextPage ≠ 0
  · simp [hc]
  · simp [hc]

theorem eachScanTrace_mid {α : Type} (pages : Nat → PageResp α) (next : List α → Bool)
    (p : Nat) (suf : List Nat) (hsuf : suf ≠ []) :
    ∀ (fuel start : Nat) (pre : List Nat),
      eachScanTrace pages next fuel start = pre ++ p :: suf →
      (pages p).err = none ∧ next (pages p).items = true ∧ (pages p).nextPage ≠ 0 := by
  intro fuel
  induction fuel with
  | zero =>
    intro start pre htr
    simp [eachScanTrace] at htr
  | succ f ih =>
    intro start pre htr
    rw [eachScanTrace_succ] at htr
    by_cases hc : (pages start).err = none ∧ next (pages start).items = true ∧
        (pages start).nextPage ≠ 0
    · rw [if_pos hc] at htr
      cases pre with
      | nil =>
        simp at htr
        obtain ⟨hp, _⟩ := htr
        subst hp
        exact hc
      | cons q pre2 =>
        simp at htr
        exact ih (pages start).nextPage pre2 htr.2
    · rw [if_neg hc] at htr
      cases pre with
      | nil =>
        simp at htr
        exact absurd htr.2 hsuf
      | cons q pre2 =>
        simp at htr

theorem eachScanTrace_last {α : Type} (pages : Nat → PageResp α) (next : List α → Bool)
    (p : Nat) :
    ∀ (fuel start : Nat) (pre : List Nat),
      eachScanTrace pages next fuel start = pre ++ [p] →
      (pages p).err = none → next (pages p).items = true →
      ((pages p).nextPage = 0 ∨ (pre ++ [p]).length = fuel) := by
  intro fuel
  induction fuel with
  | zero =>
    intro start pre htr
    simp [eachScanTrace] at htr
  | succ f ih =>
    intro start pre htr herr hnext
    rw [eachScanTrace_succ] at htr
    by_cases hc : (pages start).err = none ∧ next (pages start).items = true ∧
        (pages start).nextPage ≠ 0
    · rw [if_pos hc] at htr
      cases pre with
      | nil =>
        simp at htr
        obtain ⟨hp, hrest⟩ := htr
        cases f with
        | zero => right; simp
        | succ f2 => exact absurd hrest (eachScanTrace_ne_nil pages next f2 (pages start).nextPage)
      | cons q pre2 =>
        simp at htr
        rcases ih (pages start).nextPage pre2 htr.2 herr hnext with h0 | hlen
        · exact Or.inl h0
        · right
          simp [List.length_append] at hlen ⊢
          omega
    · rw [if_neg hc] at htr
      cases pre with
      | nil =>
        simp at htr
        subst htr
        left
        by_contra h0
        exact hc ⟨herr, hnext, h0⟩
      | cons q pre2 =>
        simp at htr

/-- C6: the paginated scanners never request a further page after the
predicate returns false: every requested page that is followed by another
request had no error, a true predicate and a non-zero advertised next page
(first conjunct); a page on which the predicate signals a match (returns
false) is always the last request, even if more pages are advertised (second
conjunct); and when the predicate keeps returning true without errors the scan
stops exactly when the remote reports no next page — unless the model's fuel
ran out first (third conjunct). -/
theorem eachScan_short_circuit {α : Type} (pages : Nat → PageResp α) (next : List α → Bool)
    (fuel start : Nat) :
    (∀ (pre : List Nat) (p : Nat) (suf : List Nat),
      eachScanTrace pages next fuel start = pre ++ p :: suf → suf ≠ [] →
      (pages p).err = none ∧ next (pages p).items = true ∧ (pages p).nextPage ≠ 0)
    ∧ (∀ (pre : List Nat) (p : Nat) (suf : List Nat),
      eachScanTrace pages next fuel start = pre ++ p :: suf →
      next (pages p).items = false → suf = [])
    ∧ (∀ (pre : List Nat) (p : Nat),
      eachScanTrace pages next fuel start = pre ++ [p] →
      (pages p).err = none → next (pages p).items = true →
      ((pages p).nextPage = 0 ∨ (eachScanTrace pages next fuel start).length = fuel)) := by
  refine ⟨?_, ?_, ?_⟩
  · intro pre p suf htr hsuf
    exact eachScanTrace_mid pages next p suf hsuf fuel start pre htr
  · intro pre p suf htr hfalse
    by_contra hsuf
    have h := eachScanTrace_mid pages next p suf hsuf fuel start pre htr
    rw [h.2.1] at hfalse
    exact absurd hfalse (by simp)
  · intro pre p htr herr hnext
    rcases eachScanTrace_last pages next p fuel start pre htr herr hnext with h0 | hlen
    · exact Or.inl h0
    · right
      rw [htr]
      exact hlen

/-- A concrete remote for the C6 witness: page `k` holds the single item `k`
and advertises page `k + 1`. -/
def pagesW : Nat → PageResp Nat := fun k => { items := [k], nextPage := k + 1, err := none }

/-- A concrete predicate for the C6 witness: keep scanning until an item
equal to 2 appears. -/
def nextW : List Nat → Bool := fun l => !(l.contains 2)

/-- Witness for C6: with the concrete remote above the scan requests pages
0, 1, 2 and stops at page 2, where the predicate signals the match; page 0,
being followed by further requests, passed the predicate with a next page
advertised. -/
theorem eachScan_short_circuit_witness :
    eachScanTrace pagesW nextW 10 0 = [0, 1, 2]
    ∧ ((pagesW 0).err = none ∧ nextW (pagesW 0).items = true ∧ (pagesW 0).nextPage ≠ 0) := by
  refine ⟨by decide, ?_⟩
  exact (eachScan_short_circuit pagesW nextW 10 0).1 [] 0 [1, 2] (by decide) (by decide)

/-! ## The auto-closing reader (`readerWithAutoCloser`, stream decorator
source lines 156-172)

    func (r *readerWithAutoCloser) Read(p []byte) (n int, err error) {
        n, err = r.rc.Read(p)
        if err == io.EOF { r.rc.Close() }
        return n, err
    }

The wrapped handle is an `*os.File` or an HTTP response body: while open it
yields its remaining chunks and then `io.EOF`; once closed, reading it fails
with a "closed" error that is not `io.EOF`.  `closeCount` counts the `Close`
calls made on the handle. -/

structure Handle : Type where
  chunks : List String
  closed : Bool
  closeCount : Nat
deriving DecidableEq

inductive ReadResult : Type
  | data (s : String)
  | eof
  | errClosed
deriving DecidableEq

/-- One `Read` on the wrapped handle (file descriptor / HTTP body). -/
def handleRead (h : Handle) : Handle × ReadResult :=
  if h.closed then (h, .errClosed)
  else
    match h.chunks with
    | [] => (h, .eof)
    | c :: rest => ({ h with chunks := rest }, .data c)

/-- `Close` on the wrapped handle. -/
def handleClose (h : Handle) : Handle :=
  { h with closed := true, closeCount := h.closeCount + 1 }

/-- One `Read` on the auto-closing reader: delegate, and `Close` the wrapped
handle exactly when the delegated read returned `io.EOF`. -/
def autoRead (h : Handle) : Handle × ReadResult :=
  let r := handleRead h
  match r.2 with
  | .eof => (handleClose r.1, .eof)
  | _ => r

/-- The handle state after `k` successive `Read` calls on the auto-closing
reader. -/
def autoReads (h : Handle) : Nat → Handle
  | 0 => h
  | k + 1 => autoReads (autoRead h).1 k

theorem autoReads_of_closed (h : Handle) (hc : h.closed = true) :
    ∀ k, autoReads h k = h := by
  intro k
  induction k with
  | zero => rfl
  | succ j ih =>
    have hstep : (autoRead h).1 = h := by
      simp [autoRead, handleRead, hc]
    simp [autoReads, hstep, ih]

theorem autoReads_closeCount :
    ∀ (k : Nat) (chunks : List String) (cnt : Nat),
      (autoReads (Handle.mk chunks false cnt) k).closeCount
        = if chunks.length < k then cnt + 1 else cnt := by
  intro k
  induction k with
  | zero =>
    intro chunks cnt
    simp [autoReads]
  | succ j ih =>
    intro chunks cnt
    cases chunks with
    | nil =>
      have hstep : (autoRead (Handle.mk [] false cnt)).1 = Handle.mk [] true (cnt + 1) := by
        simp [autoRead, handleRead, handleClose]
      simp [autoReads, hstep, autoReads_of_closed (Handle.mk [] true (cnt + 1)) rfl]
    | cons c rest =>
      have hstep : (autoRead (Handle.mk (c :: rest) false cnt)).1 = Handle.mk rest false cnt := by
        simp [autoRead, handleRead]
      simp [autoReads, hstep, ih, Nat.succ_lt_succ_iff]

/-- C9: the auto-closing reader closes its wrapped handle at most once in
total, and does so precisely at the first read that observes end-of-stream:
after any `k` reads of a handle with `chunks` remaining, the handle has been
closed once when some read hit end-of-file (`k` exceeds the chunk count) and
zero times otherwise; in particular a stream abandoned before end-of-file
(`k ≤ chunks.length` reads) is never closed by the reader, and the read after
the last chunk is the one that closes it. -/
theorem readerWithAutoCloser_close_once (chunks : List String) (k : Nat) :
    ((autoReads (Handle.mk chunks false 0) k).closeCount
        = if chunks.length < k then 1 else 0)
    ∧ (autoReads (Handle.mk chunks false 0) k).closeCount ≤ 1
    ∧ (k ≤ chunks.length → (autoReads (Handle.mk chunks false 0) k).closeCount = 0)
    ∧ (autoReads (Handle.mk chunks false 0) (chunks.length + 1)).closeCount = 1 := by
  have h := autoReads_closeCount k chunks 0
  refine ⟨h, ?_, ?_, ?_⟩
  · rw [h]
    by_cases hlt : chunks.length < k <;> simp [hlt]
  · intro hk
    rw [h, if_neg (by omega)]
  · rw [autoReads_closeCount (chunks.length + 1) chunks 0, if_pos (by omega)]

/-- Witness for C9: with two chunks remaining, three reads (the third
observing end-of-file) close the handle exactly once, while two reads leave
it unclosed. -/
theorem readerWithAutoCloser_close_once_witness :
    (autoReads (Handle.mk ["a", "b"] false 0) 3).closeCount = 1
    ∧ (autoReads (Handle.mk ["a", "b"] false 0) 2).closeCount = 0 := by
  constructor
  · exact (readerWithAutoCloser_close_once ["a", "b"] 3).2.2.2
  · exact (readerWithAutoCloser_close_once ["a", "b"] 2).2.2.1 (by decide)
